import Mathlib

/-!
Verification of the github-context repository content extractor
(`src/github_context/github_context.py`) against its specification.

Strings from the Python source are modelled as `List Char`; byte buffers
(`bytes`) as `List Nat` (each element one byte value).  The nondeterministic
completion order of a thread-pool fan-out round is modelled explicitly as a
list of indices (the order in which workers complete); worker exceptions are
modelled with `Except`.
-/

/-! ## ContentFilter: `should_ignore` / `is_binary` -/

/-- Predicate `starts_with pat s`: holds when `pat` is an initial segment of `s`
(used to build Python's substring test `pattern in path`). -/
def starts_with : List Char → List Char → Bool
  | [], _ => true
  | _ :: _, [] => false
  | a :: asx, b :: bs => a == b && starts_with asx bs

/-- Predicate `has_sub s pat`: models Python's `pat in s` (substring containment). -/
def has_sub : List Char → List Char → Bool
  | s, pat =>
    if starts_with pat s then true
    else
      match s with
      | [] => false
      | _ :: rest => has_sub rest pat

/-- Model of `should_ignore` from the source:
`any(pattern in path for pattern in ignore_patterns) or path == ".gitignore"`. -/
def should_ignore (path : List Char) (ignore_patterns : List (List Char)) : Bool :=
  ignore_patterns.any (fun pattern => has_sub path pattern) || path == ".gitignore".data

mutual

/-- Strict UTF-8 decoding of a byte list, as CPython's `bytes.decode("utf-8")`:
rejects continuation-byte leads, overlong encodings, surrogates and
code points above U+10FFFF; `none` models `UnicodeDecodeError`.
The continuation bytes of a 2-, 3- or 4-byte sequence are checked by
`utf8Cont1` / `utf8Cont2` / `utf8Cont3`. -/
def utf8Decode : List Nat → Option (List Char)
  | [] => some []
  | b :: rest =>
    if b ≤ 0x7F then (utf8Decode rest).map (fun cs => Char.ofNat b :: cs)
    else if b ≤ 0xC1 then none
    else if b ≤ 0xDF then utf8Cont1 b rest
    else if b ≤ 0xEF then utf8Cont2 b rest
    else if b ≤ 0xF4 then utf8Cont3 b rest
    else none

def utf8Cont1 (b : Nat) : List Nat → Option (List Char)
  | b1 :: rest =>
    if 0x80 ≤ b1 && b1 ≤ 0xBF then
      (utf8Decode rest).map (fun cs =>
        Char.ofNat ((b - 0xC0) * 0x40 + (b1 - 0x80)) :: cs)
    else none
  | [] => none

def utf8Cont2 (b : Nat) : List Nat → Option (List Char)
  | b1 :: b2 :: rest =>
    if (if b = 0xE0 then 0xA0 ≤ b1 && b1 ≤ 0xBF
        else if b = 0xED then 0x80 ≤ b1 && b1 ≤ 0x9F
        else 0x80 ≤ b1 && b1 ≤ 0xBF) && (0x80 ≤ b2 && b2 ≤ 0xBF) then
      (utf8Decode rest).map (fun cs =>
        Char.ofNat ((b - 0xE0) * 0x1000 + (b1 - 0x80) * 0x40 + (b2 - 0x80)) :: cs)
    else none
  | _ => none

def utf8Cont3 (b : Nat) : List Nat → Option (List Char)
  | b1 :: b2 :: b3 :: rest =>
    if (if b = 0xF0 then 0x90 ≤ b1 && b1 ≤ 0xBF
        else if b = 0xF4 then 0x80 ≤ b1 && b1 ≤ 0x8F
        else 0x80 ≤ b1 && b1 ≤ 0xBF)
        && (0x80 ≤ b2 && b2 ≤ 0xBF) && (0x80 ≤ b3 && b3 ≤ 0xBF) then
      (utf8Decode rest).map (fun cs =>
        Char.ofNat ((b - 0xF0) * 0x40000 + (b1 - 0x80) * 0x1000
          + (b2 - 0x80) * 0x40 + (b3 - 0x80)) :: cs)
    else none
  | _ => none

end

/-- Model of `is_binary` from the source (the source's default `sample_size` is 1024):
report binary when the sample contains a NUL byte, or when decoding the
sample as UTF-8 raises. -/
def is_binary (content : List Nat) (sample_size : Nat) : Bool :=
  if (content.take sample_size).any (fun b => b == 0) then true
  else (utf8Decode (content.take sample_size)).isNone

/-! ## Output block formatting: `add_content` -/

/-- Model of `add_content` from the source:
`f"{'='*50}\n{header}\n{'='*50}\n\n{content}\n\n"`. -/
def add_content (header content : List Char) : List Char :=
  List.replicate 50 '=' ++ "\n".data ++ header ++ "\n".data
    ++ List.replicate 50 '=' ++ "\n\n".data ++ content ++ "\n\n".data

/-! ## Substring-containment bridge lemmas -/

theorem starts_with_iff (pat s : List Char) :
    starts_with pat s = true ↔ pat <+: s := by
  induction pat generalizing s with
  | nil => simp [starts_with, List.nil_prefix]
  | cons a asx ih =>
    cases s with
    | nil =>
      simp [starts_with, List.prefix_nil]
    | cons b bs =>
      simp only [starts_with, Bool.and_eq_true, beq_iff_eq, ih,
        List.cons_prefix_cons]

theorem has_sub_iff (s pat : List Char) :
    has_sub s pat = true ↔ pat <:+: s := by
  induction s with
  | nil =>
    rw [has_sub]
    constructor
    · intro h
      by_cases hs : starts_with pat [] = true
      · exact ((starts_with_iff pat []).mp hs).isInfix
      · simp [hs] at h
    · intro h
      have := List.eq_nil_of_infix_nil h
      subst this
      simp [starts_with]
  | cons a rest ih =>
    rw [has_sub]
    by_cases hs : starts_with pat (a :: rest) = true
    · simp only [hs, if_true, true_iff]
      exact ((starts_with_iff pat (a :: rest)).mp hs).isInfix
    · simp only [hs, if_false, Bool.false_eq_true]
      rw [ih]
      constructor
      · intro h
        exact h.trans (List.infix_cons (List.infix_refl rest))
      · intro h
        rcases (List.infix_cons_iff).mp h with h1 | h2
        · exact absurd ((starts_with_iff pat (a :: rest)).mpr h1) hs
        · exact h2

/-- C3: `should_ignore p R` is true iff some rule of `R` is a substring of
`p`, or `p` is the literal ignore-file name `".gitignore"`; it is a pure
total Lean function (no I/O). -/
theorem should_ignore_iff (p : List Char) (R : List (List Char)) :
    should_ignore p R = true ↔ (∃ r ∈ R, r <:+: p) ∨ p = ".gitignore".data := by
  unfold should_ignore
  simp only [Bool.or_eq_true, List.any_eq_true, beq_iff_eq]
  constructor
  · rintro (⟨r, hr, hsub⟩ | heq)
    · exact Or.inl ⟨r, hr, (has_sub_iff p r).mp hsub⟩
    · exact Or.inr heq
  · rintro (⟨r, hr, hsub⟩ | heq)
    · exact Or.inl ⟨r, hr, (has_sub_iff p r).mpr hsub⟩
    · exact Or.inr heq

/-- C4: with the source's default sample size 1024, `is_binary b` is true
iff the first 1024 bytes of `b` contain a NUL byte or fail strict UTF-8
decoding; and `is_binary` inspects only those first 1024 bytes. -/
theorem is_binary_iff (b : List Nat) :
    (is_binary b 1024 = true ↔
      (0 ∈ b.take 1024 ∨ utf8Decode (b.take 1024) = none)) ∧
    is_binary b 1024 = is_binary (b.take 1024) 1024 := by
  constructor
  · cases hany : (b.take 1024).any (fun x => x == 0) with
    | true =>
      have hmem : 0 ∈ b.take 1024 := by
        rcases List.any_eq_true.mp hany with ⟨x, hx, hbeq⟩
        have h0 : x = 0 := by simpa using hbeq
        exact h0 ▸ hx
      simp [is_binary, hany, hmem]
    | false =>
      have hmem : 0 ∉ b.take 1024 := by
        intro hm
        have hc : (b.take 1024).any (fun x => x == 0) = true :=
          List.any_eq_true.mpr ⟨0, hm, by simp⟩
        rw [hany] at hc
        cases hc
      simp [is_binary, hany, hmem, Option.isNone_iff_eq_none]
  · unfold is_binary
    rw [List.take_take]
    norm_num

/-- C6: `add_content h c` is exactly: a line of 50 `=` characters, the
header line, another line of 50 `=` characters, one blank line, the body,
and two trailing newlines. -/
theorem add_content_format (h c : List Char) :
    add_content h c =
      List.replicate 50 '=' ++ '\n' ::
        (h ++ '\n' :: (List.replicate 50 '=' ++ '\n' :: '\n' ::
          (c ++ ['\n', '\n']))) := by
  simp only [add_content, List.append_assoc]
  rfl

/-! ## ItemExtractor for files: `extract_file_content` -/

/-- The body of `extract_file_content`'s `try` block.  `fetched` models
`base64.b64decode(content_file.content)` — either the raw bytes or a raised
exception; a failing full-text UTF-8 decode models the `UnicodeDecodeError`
raised by `file_content.decode("utf-8")`.  `Except.error` models an
exception escaping the `try` block. -/
def extract_file_body (path : List Char) (fetched : Except (List Char) (List Nat)) :
    Except (List Char) (Option (List Char)) :=
  match fetched with
  | Except.error e => Except.error e
  | Except.ok file_content =>
    if !is_binary file_content 1024 then
      match utf8Decode file_content with
      | some text => Except.ok (some (add_content ("File: ".data ++ path) text))
      | none => Except.error "UnicodeDecodeError".data
    else Except.ok none

/-- Model of `extract_file_content` from the source: skip ignored paths silently;
run the `try` block; any exception raised inside it is caught (logged) and
the function falls through to `return None`. -/
def extract_file_content (path : List Char) (ignore_patterns : List (List Char))
    (fetched : Except (List Char) (List Nat)) : Option (List Char) :=
  if !should_ignore path ignore_patterns then
    match extract_file_body path fetched with
    | Except.ok r => r
    | Except.error _ => none
  else none

/-- C9: `extract_file_content` is total at its boundary: it never
propagates an exception — it returns either exactly one wrapped block or
`none`, and it returns `none` for fetch errors, ignored paths,
binary-classified content, and full-text decode failures. -/
theorem extract_file_content_total (p : List Char) (ign : List (List Char))
    (f : Except (List Char) (List Nat)) :
    (extract_file_content p ign f = none ∨
      ∃ s, extract_file_content p ign f = some s) ∧
    (∀ s, extract_file_content p ign f = some s →
      ∃ text, s = add_content ("File: ".data ++ p) text) ∧
    (∀ e, f = Except.error e → extract_file_content p ign f = none) ∧
    (should_ignore p ign = true → extract_file_content p ign f = none) ∧
    (∀ b, f = Except.ok b → is_binary b 1024 = true →
      extract_file_content p ign f = none) ∧
    (∀ b, f = Except.ok b → utf8Decode b = none →
      extract_file_content p ign f = none) := by
  cases hig : should_ignore p ign with
  | true =>
    have hrw : extract_file_content p ign f = none := by
      simp [extract_file_content, hig]
    refine ⟨Or.inl hrw, ?_, fun _ _ => hrw, fun _ => hrw, fun _ _ _ => hrw,
      fun _ _ _ => hrw⟩
    intro s hs
    rw [hrw] at hs
    exact Option.noConfusion hs
  | false =>
    cases f with
    | error e =>
      have hrw : extract_file_content p ign (Except.error e) = none := by
        simp [extract_file_content, extract_file_body, hig]
      refine ⟨Or.inl hrw, ?_, fun _ _ => hrw, ?_, ?_, ?_⟩
      · intro s hs
        rw [hrw] at hs
        exact Option.noConfusion hs
      · intro hig2
        exact Bool.noConfusion hig2
      · intro b hb
        exact Except.noConfusion hb
      · intro b hb
        exact Except.noConfusion hb
    | ok bytes =>
      cases hb : is_binary bytes 1024 with
      | true =>
        have hrw : extract_file_content p ign (Except.ok bytes) = none := by
          simp [extract_file_content, extract_file_body, hig, hb]
        refine ⟨Or.inl hrw, ?_, ?_, ?_, fun _ _ _ => hrw, fun _ _ _ => hrw⟩
        · intro s hs
          rw [hrw] at hs
          exact Option.noConfusion hs
        · intro e he
          exact Except.noConfusion he
        · intro hig2
          exact Bool.noConfusion hig2
      | false =>
        cases hd : utf8Decode bytes with
        | none =>
          have hrw : extract_file_content p ign (Except.ok bytes) = none := by
            simp [extract_file_content, extract_file_body, hig, hb, hd]
          refine ⟨Or.inl hrw, ?_, ?_, ?_, ?_, fun _ _ _ => hrw⟩
          · intro s hs
            rw [hrw] at hs
            exact Option.noConfusion hs
          · intro e he
            exact Except.noConfusion he
          · intro hig2
            exact Bool.noConfusion hig2
          · intro b hb2 hbin
            cases hb2
            rw [hb] at hbin
            exact Bool.noConfusion hbin
        | some text =>
          have hrw : extract_file_content p ign (Except.ok bytes)
              = some (add_content ("File: ".data ++ p) text) := by
            simp [extract_file_content, extract_file_body, hig, hb, hd]
          refine ⟨Or.inr ⟨_, hrw⟩, ?_, ?_, ?_, ?_, ?_⟩
          · intro s hs
            rw [hrw] at hs
            cases hs
            exact ⟨text, rfl⟩
          · intro e he
            exact Except.noConfusion he
          · intro hig2
            exact Bool.noConfusion hig2
          · intro b hb2 hbin
            cases hb2
            rw [hb] at hbin
            exact Bool.noConfusion hbin
          · intro b hb2 hdec
            cases hb2
            rw [hd] at hdec
            exact Option.noConfusion hdec

/-- Closed witness for C9: the ignored-path case and the caught-fetch-error
case both yield `none`. -/
theorem extract_file_content_total_witness :
    extract_file_content ".gitignore".data [] (Except.ok [104]) = none ∧
    extract_file_content "a.py".data [] (Except.error "boom".data) = none :=
  ⟨(extract_file_content_total ".gitignore".data [] (Except.ok [104])).2.2.2.1
      (by decide),
   (extract_file_content_total "a.py".data [] (Except.error "boom".data)).2.2.1
      "boom".data rfl⟩

/-! ## Sample-boundary truncation (C8) -/

theorem utf8Decode_ascii_cons (b : Nat) (hb : b ≤ 0x7F) (l : List Nat) :
    utf8Decode (b :: l) = (utf8Decode l).map (fun cs => Char.ofNat b :: cs) := by
  rw [utf8Decode, if_pos hb]

theorem utf8Decode_replicate_a (n : Nat) (l : List Nat) :
    utf8Decode (List.replicate n 97 ++ l) = none ↔ utf8Decode l = none := by
  induction n with
  | zero => simp
  | succ n ih =>
    rw [List.replicate_succ, List.cons_append,
      utf8Decode_ascii_cons 97 (by norm_num), Option.map_eq_none']
    exact ih

/-- C8: a buffer can be valid UTF-8 in its entirety and still be classified
binary: 1023 ASCII bytes followed by the two-byte character C3 A9 decodes in
full, but the 1024-byte sample cuts that character after C3, the truncated
sample fails to decode, and `is_binary` returns true. -/
theorem is_binary_true_on_valid_utf8 :
    ∃ b : List Nat, (utf8Decode b).isSome = true ∧ is_binary b 1024 = true := by
  refine ⟨List.replicate 1023 97 ++ [0xC3, 0xA9], ?_, ?_⟩
  · rw [Option.isSome_iff_ne_none]
    intro hnone
    rw [utf8Decode_replicate_a] at hnone
    exact absurd hnone (by decide)
  · have htake : (List.replicate 1023 97 ++ [0xC3, 0xA9]).take 1024
        = List.replicate 1023 97 ++ [0xC3] := by
      rw [List.take_append_eq_append_take, List.length_replicate,
        List.take_of_length_le (by rw [List.length_replicate]; omega)]
      norm_num
    have hdec : utf8Decode (List.replicate 1023 97 ++ [0xC3]) = none := by
      rw [utf8Decode_replicate_a]
      decide
    unfold is_binary
    rw [htake, hdec]
    cases (List.replicate 1023 97 ++ [0xC3]).any (fun x => x == 0) <;> simp

/-! ## TreeWalker: `extract_repo_content` -/

/-- One node of the remote tree: a directory with its listed children and
the completion order of its file-fetch futures, or a file with its path and
fetch outcome.  `ord` records, as indices into the sublist of file children
(in listing order), the order in which the level's `as_completed` loop
yields the file futures. -/
inductive RNode where
  | dir (path : List Char) (children : List RNode) (ord : List Nat)
  | file (path : List Char) (fetched : Except (List Char) (List Nat))

def isDir : RNode → Bool
  | RNode.dir _ _ _ => true
  | RNode.file _ _ => false

/-- The worker function submitted for one file entry
(`extract_file_content`); directory entries are never submitted. -/
def fileResult (ign : List (List Char)) : RNode → Option (List Char)
  | RNode.file p f => extract_file_content p ign f
  | RNode.dir _ _ _ => none

/-- The blocks appended by the `as_completed` collection loop of one
directory level, in completion order `ord` (only non-`None` worker results
are appended). -/
def extract_files_blocks (ign : List (List Char)) (children : List RNode)
    (ord : List Nat) : List (List Char) :=
  ord.filterMap (fun i =>
    ((children.filter (fun c => !isDir c)).get? i).bind (fileResult ign))

mutual

/-- Model of `extract_repo_content` from the source, at one directory node: the
loop over `contents` appends each subdirectory's full recursive result in
listing order (`extract_repo_dirs`), then the `as_completed` loop appends
the level's own file blocks in completion order. -/
def extract_repo_content (ign : List (List Char)) : RNode → List Char
  | RNode.file _ _ => []
  | RNode.dir _ children ord =>
      extract_repo_dirs ign children
        ++ (extract_files_blocks ign children ord).flatten

/-- The `for content_file in contents: if content_file.type == "dir"` loop:
recurse into directory entries in listing order, skipping file entries. -/
def extract_repo_dirs (ign : List (List Char)) : List RNode → List Char
  | [] => []
  | c :: cs =>
      (match c with
       | RNode.dir _ _ _ => extract_repo_content ign c
       | RNode.file _ _ => []) ++ extract_repo_dirs ign cs

end

theorem extract_repo_dirs_eq (ign : List (List Char)) (cs : List RNode) :
    extract_repo_dirs ign cs
      = ((cs.filter isDir).map (extract_repo_content ign)).flatten := by
  induction cs with
  | nil => simp [extract_repo_dirs]
  | cons c cs ih =>
    cases c with
    | dir p ch od => simp [extract_repo_dirs, isDir, List.filter_cons, ih]
    | file p f => simp [extract_repo_dirs, isDir, List.filter_cons, ih]

/-- C2: the text returned for a directory level is the concatenation of the
full aggregated result of each subdirectory, in the order the
subdirectories were listed, followed by the blocks of the current level's
files in completion order — so every block from an earlier-listed
subdirectory precedes every block from a later-listed one, and all
subdirectory blocks precede every current-level file block. -/
theorem extract_repo_content_order (ign : List (List Char)) (p : List Char)
    (children : List RNode) (ord : List Nat) :
    extract_repo_content ign (RNode.dir p children ord)
      = ((children.filter isDir).map (extract_repo_content ign)).flatten
        ++ (extract_files_blocks ign children ord).flatten := by
  rw [extract_repo_content, extract_repo_dirs_eq]

/-! ## ConcurrentAggregator for issues: `extract_issues` -/

/-- Model of `extract_issues` from the source: the `as_completed` loop appends
`future.result()` with no try/except around it, so the first worker
exception (in completion order) propagates out of the aggregation.
`results` is the list of worker outcomes in completion order. -/
def extract_issues (results : List (Except (List Char) (List Char))) :
    Except (List Char) (List Char) :=
  match results with
  | [] => Except.ok []
  | Except.error e :: _ => Except.error e
  | Except.ok s :: rs => (extract_issues rs).map (fun rest => s ++ rest)

/-- C1 counterexample: in the issues fan-out round a raising worker is NOT
caught at the aggregator boundary: `extract_issues` propagates the
exception, aborting the aggregation and discarding even the block of a
sibling worker that had already completed. -/
theorem extract_issues_aborts_on_worker_error :
    extract_issues [Except.ok "block".data, Except.error "boom".data]
      = Except.error "boom".data := rfl

theorem length_filterMap_all_isSome {α : Type} (f : Nat → Option α)
    (l : List Nat) (h : ∀ i ∈ l, (f i).isSome = true) :
    (l.filterMap f).length = l.length := by
  induction l with
  | nil => rfl
  | cons a l ih =>
    rcases Option.isSome_iff_exists.mp (h a (List.mem_cons_self a l)) with ⟨b, hb⟩
    rw [List.filterMap_cons, hb]
    simp only [List.length_cons]
    rw [ih (fun i hi => h i (List.mem_cons_of_mem a hi))]

theorem length_filterMap_single_none {α : Type} (f : Nat → Option α)
    (l : List Nat) (k : Nat) (hnd : l.Nodup) (hk : k ∈ l)
    (hsome : ∀ i ∈ l, i ≠ k → (f i).isSome = true) (hnone : f k = none) :
    (l.filterMap f).length = l.length - 1 := by
  induction l with
  | nil => cases hk
  | cons a l ih =>
    rcases List.nodup_cons.mp hnd with ⟨hna, hndl⟩
    by_cases hak : a = k
    · subst hak
      rw [List.filterMap_cons, hnone]
      rw [length_filterMap_all_isSome f l
        (fun i hi => hsome i (List.mem_cons_of_mem a hi) (fun he => hna (he ▸ hi)))]
      simp
    · have hk2 : k ∈ l := by
        rcases List.mem_cons.mp hk with h1 | h2
        · exact absurd h1.symm hak
        · exact h2
      rcases Option.isSome_iff_exists.mp
        (hsome a (List.mem_cons_self a l) hak) with ⟨b, hb⟩
      rw [List.filterMap_cons, hb]
      simp only [List.length_cons]
      rw [ih hndl hk2 (fun i hi hik => hsome i (List.mem_cons_of_mem a hi) hik)]
      have hpos : 1 ≤ l.length :=
        List.length_pos.mpr (List.ne_nil_of_mem hk2)
      omega

/-- C1 amended: in the FILE fan-out round, failures are caught inside the
worker (`extract_file_content`) itself, so a failing file contributes
nothing and never aborts the aggregation: if exactly one of N files yields
no block (e.g. its fetch/decode raised), the round completes with exactly
N−1 blocks.  (In the issues round, by contrast, a raising worker propagates
out of `extract_issues`; it is caught only at the outer job boundary in
`main`.) -/
theorem file_round_failure_isolation (ign : List (List Char)) (fs : List RNode)
    (ord : List Nat) (k : Nat)
    (hfiles : ∀ c ∈ fs, isDir c = false)
    (hperm : ord.Perm (List.range fs.length))
    (hk : k < fs.length)
    (hsome : ∀ i, i < fs.length → i ≠ k →
      ((fs.get? i).bind (fileResult ign)).isSome = true)
    (hnone : (fs.get? k).bind (fileResult ign) = none) :
    (extract_files_blocks ign fs ord).length = fs.length - 1 := by
  have hfe : fs.filter (fun c => !isDir c) = fs :=
    List.filter_eq_self.mpr (fun c hc => by rw [hfiles c hc]; rfl)
  unfold extract_files_blocks
  rw [hfe]
  rw [(hperm.filterMap (fun i => (fs.get? i).bind (fileResult ign))).length_eq]
  rw [length_filterMap_single_none _ _ k (List.nodup_range _) (List.mem_range.mpr hk)
    (fun i hi hik => hsome i (List.mem_range.mp hi) hik) hnone]
  rw [List.length_range]

/-- Concrete file fan-out round for the C1 witness: two files, the second
one's fetch raises. -/
def fsW : List RNode :=
  [RNode.file "a.py".data (Except.ok [104, 105]),
   RNode.file "b.py".data (Except.error "decode".data)]

/-- Closed witness for the amended C1: with the failing file completing
first, the round still yields exactly 2 − 1 = 1 block. -/
theorem file_round_failure_isolation_witness :
    (extract_files_blocks [] fsW [1, 0]).length = fsW.length - 1 :=
  file_round_failure_isolation [] fsW [1, 0] 1 (by decide) (by decide)
    (by decide) (by decide) (by decide)

/-! ## RunCoordinator: `main`'s job dispatch and merge -/

/-- The mode flags parsed by `main` (argparse `store_true` flags). -/
structure Flags where
  issues_only : Bool
  wiki_only : Bool
  code_only : Bool
  readme_only : Bool
  no_issues : Bool
  no_wiki : Bool

inductive Job where
  | code
  | issues
  | wiki
  | readme
deriving DecidableEq

/-- The top-level jobs `main` submits to the outer pool, in submission
order, as decided by the flag tests in the source. -/
def jobs (a : Flags) : List Job :=
  if a.readme_only then [Job.readme]
  else
    (if a.code_only || (!a.issues_only && !a.wiki_only) then [Job.code] else [])
      ++ (if !a.no_issues && !a.wiki_only && !a.code_only then [Job.issues]
          else [])
      ++ (if !a.no_wiki && !a.issues_only && !a.code_only then [Job.wiki]
          else [])

/-- The source's condition for rendering the file-tree listing:
`args.code_only or (not issues_only and not wiki_only and not readme_only)`. -/
def tree_condition (a : Flags) : Bool :=
  a.code_only || (!a.issues_only && !a.wiki_only && !a.readme_only)

/-- The job texts appended by `main`'s `as_completed` loop, in completion
order `ord`; a job whose future raised is caught there and contributes
nothing. -/
def main_blocks (a : Flags) (outcome : Job → Except (List Char) (List Char))
    (ord : List Nat) : List (List Char) :=
  ord.filterMap (fun i => ((jobs a).get? i).bind (fun j => (outcome j).toOption))

/-- The document assembled by `main`: the title line, the merged job texts
in completion order, then — exactly when `tree_condition` holds — the
"File Structure" block, appended last. -/
def main_document (a : Flags) (title : List Char)
    (outcome : Job → Except (List Char) (List Char)) (ord : List Nat)
    (tree : List Char) : List Char :=
  title ++ (main_blocks a outcome ord).flatten
    ++ (if tree_condition a then add_content "File Structure".data tree else [])

/-- A run with no restricting flag set. -/
def flagsDefault : Flags := ⟨false, false, false, false, false, false⟩

/-- Distinct per-job section texts, all successful. -/
def outcomeCX : Job → Except (List Char) (List Char)
  | Job.code => Except.ok "C".data
  | Job.issues => Except.ok "I".data
  | Job.wiki => Except.ok "W".data
  | Job.readme => Except.ok "R".data

/-- C5 counterexample: with identical flags and identical per-job section
texts, two valid job completion orders produce documents whose top-level
sections appear in different relative order — the merge order is completion
order, not a fixed mode-determined order. -/
theorem main_document_depends_on_completion_order :
    [1, 0, 2].Perm (List.range (jobs flagsDefault).length) ∧
    main_document flagsDefault [] outcomeCX [0, 1, 2] []
      ≠ main_document flagsDefault [] outcomeCX [1, 0, 2] [] := by
  decide

/-- C5 amended: the relative order of the top-level job sections follows
job completion order and may differ between executions with identical
flags and remote state; what is fixed by the flags alone is that the title
comes first, the File Structure block (when the code path is exercised)
comes last, and a different completion order only permutes the job
sections (their multiset is determined by flags and outcomes). -/
theorem main_document_structure (a : Flags) (title : List Char)
    (outcome : Job → Except (List Char) (List Char)) (tree : List Char)
    (ord1 ord2 : List Nat) (hp : ord1.Perm ord2) :
    (main_blocks a outcome ord1).Perm (main_blocks a outcome ord2) ∧
    main_document a title outcome ord1 tree
      = title ++ (main_blocks a outcome ord1).flatten
        ++ (if tree_condition a then add_content "File Structure".data tree
            else []) :=
  ⟨hp.filterMap _, rfl⟩

/-- Closed witness for the amended C5. -/
theorem main_document_structure_witness :
    (main_blocks flagsDefault outcomeCX [0, 1, 2]).Perm
      (main_blocks flagsDefault outcomeCX [2, 1, 0]) ∧
    main_document flagsDefault [] outcomeCX [0, 1, 2] []
      = [] ++ (main_blocks flagsDefault outcomeCX [0, 1, 2]).flatten
        ++ (if tree_condition flagsDefault
            then add_content "File Structure".data [] else []) :=
  main_document_structure flagsDefault [] outcomeCX [] [0, 1, 2] [2, 1, 0]
    (by decide)

theorem main_blocks_eq_nil (a : Flags)
    (outcome : Job → Except (List Char) (List Char)) (ord : List Nat)
    (h : jobs a = []) : main_blocks a outcome ord = [] := by
  unfold main_blocks
  rw [h]
  induction ord with
  | nil => rfl
  | cons i ord ih =>
    rw [List.filterMap_cons]
    exact ih

/-- C10: with both `--issues-only` and `--wiki-only` set (and
`--readme-only`, `--code-only` unset), the flags cancel each other: no
extraction job is submitted, no file tree is rendered, and the produced
document is only the title line. -/
theorem issues_only_wiki_only_cancel (ni nw : Bool) (title : List Char)
    (outcome : Job → Except (List Char) (List Char)) (ord : List Nat)
    (tree : List Char) :
    jobs ⟨true, true, false, false, ni, nw⟩ = [] ∧
    tree_condition ⟨true, true, false, false, ni, nw⟩ = false ∧
    main_document ⟨true, true, false, false, ni, nw⟩ title outcome ord tree
      = title := by
  have hj : jobs ⟨true, true, false, false, ni, nw⟩ = [] := by
    cases ni <;> cases nw <;> rfl
  have ht : tree_condition ⟨true, true, false, false, ni, nw⟩ = false := rfl
  refine ⟨hj, ht, ?_⟩
  rw [main_document, main_blocks_eq_nil _ outcome ord hj, ht]
  simp

/-! ## File-tree rendering: `extract_file_tree` -/

/-- A node of the tree listing (content-free: names only). -/
inductive FTree where
  | dir (name : List Char) (children : List FTree)
  | file (name : List Char)

mutual

/-- Model of `extract_file_tree` from the source: iterate over the listed entries;
each entry yields one `├── `-prefixed line (directories suffixed `/`),
and a directory is followed by its recursive rendering with the prefix
extended by the 4-character string `"│   "`. -/
def extract_file_tree (pre : List Char) : List FTree → List Char
  | [] => []
  | t :: rest => extract_file_tree_entry pre t ++ extract_file_tree pre rest

/-- One iteration of `extract_file_tree`'s loop. -/
def extract_file_tree_entry (pre : List Char) : FTree → List Char
  | FTree.dir name children =>
      pre ++ "├── ".data ++ name ++ "/\n".data
        ++ extract_file_tree (pre ++ "│   ".data) children
  | FTree.file name => pre ++ "├── ".data ++ name ++ "\n".data

end

/-- C7 counterexample: the per-depth indent the source produces is the
4-character string `"│   "`, not two spaces: a directory containing one
file renders with second line `"│   ├── f"`, which differs from the
2-space-per-depth rendering. -/
theorem extract_file_tree_indent_not_two_spaces :
    extract_file_tree [] [FTree.dir "d".data [FTree.file "f".data]]
      = "├── d/\n│   ├── f\n".data ∧
    ("│   ".data).length = 4 ∧
    extract_file_tree [] [FTree.dir "d".data [FTree.file "f".data]]
      ≠ "├── d/\n  ├── f\n".data := by
  decide

/-- The per-depth indent the source actually produces: `d` copies of the
4-character string `"│   "`. -/
def tree_indent (d : Nat) : List Char := (List.replicate d "│   ".data).flatten

mutual

/-- Spec-side renderer for the amended C7 (second definition, following
the spec's words): a recursive depth-first name enumeration with one line
per entry, the line for an entry at depth `d` indented by `tree_indent d`
and prefixed `├── `, directory names suffixed `/`. -/
def tree_render_spec (d : Nat) : List FTree → List (List Char)
  | [] => []
  | t :: rest => tree_render_entry d t ++ tree_render_spec d rest

/-- The lines contributed by a single entry at depth `d`. -/
def tree_render_entry (d : Nat) : FTree → List (List Char)
  | FTree.dir name children =>
      (tree_indent d ++ "├── ".data ++ name ++ "/".data)
        :: tree_render_spec (d + 1) children
  | FTree.file name => [tree_indent d ++ "├── ".data ++ name]

end

theorem tree_indent_succ (d : Nat) :
    tree_indent d ++ "│   ".data = tree_indent (d + 1) := by
  unfold tree_indent
  rw [List.replicate_succ', List.flatten_append]
  simp

mutual

theorem extract_file_tree_spec_list (d : Nat) (ts : List FTree) :
    extract_file_tree (tree_indent d) ts
      = ((tree_render_spec d ts).map (fun l => l ++ "\n".data)).flatten := by
  match ts with
  | [] => rw [extract_file_tree, tree_render_spec]; rfl
  | t :: rest =>
    rw [extract_file_tree, tree_render_spec, List.map_append, List.flatten_append,
      extract_file_tree_spec_entry d t, extract_file_tree_spec_list d rest]

theorem extract_file_tree_spec_entry (d : Nat) (t : FTree) :
    extract_file_tree_entry (tree_indent d) t
      = ((tree_render_entry d t).map (fun l => l ++ "\n".data)).flatten := by
  match t with
  | FTree.file name =>
    rw [extract_file_tree_entry, tree_render_entry]
    simp [List.append_assoc]
  | FTree.dir name children =>
    rw [extract_file_tree_entry, tree_render_entry, tree_indent_succ,
      extract_file_tree_spec_list (d + 1) children]
    simp [List.append_assoc]

end

/-- Flags of a `--code-only` run. -/
def flagsCodeOnly : Flags := ⟨false, false, true, false, false, false⟩

/-- A job outcome assigning every job the same successful text. -/
def outcomeW : Job → Except (List Char) (List Char) :=
  fun _ => Except.ok "S".data

/-- C7 amended: whenever the code path is exercised (`--code-only`, or no
exclusive non-code mode selected), the "File Structure" block is appended
last, after all job texts, and renders the tree as a recursive depth-first
name enumeration with one `├── `-prefixed line per entry, directory names
suffixed `/`, and the 4-character indent `"│   "` per depth level. -/
theorem file_structure_block (a : Flags) (title : List Char)
    (outcome : Job → Except (List Char) (List Char)) (ord : List Nat)
    (ts : List FTree)
    (hc : (a.code_only || (!a.issues_only && !a.wiki_only && !a.readme_only))
      = true) :
    main_document a title outcome ord (extract_file_tree [] ts)
      = title ++ (main_blocks a outcome ord).flatten
        ++ add_content "File Structure".data
            (((tree_render_spec 0 ts).map (fun l => l ++ "\n".data)).flatten) := by
  have hc2 : tree_condition a = true := hc
  have hspec : extract_file_tree [] ts
      = ((tree_render_spec 0 ts).map (fun l => l ++ "\n".data)).flatten :=
    extract_file_tree_spec_list 0 ts
  rw [main_document, hc2, hspec]
  simp

/-- Closed witness for the amended C7: a `--code-only` run appends the
rendered File Structure block last. -/
theorem file_structure_block_witness :
    main_document flagsCodeOnly [] outcomeW [0]
        (extract_file_tree [] [FTree.file "f".data])
      = [] ++ (main_blocks flagsCodeOnly outcomeW [0]).flatten
        ++ add_content "File Structure".data
            (((tree_render_spec 0 [FTree.file "f".data]).map
              (fun l => l ++ "\n".data)).flatten) :=
  file_structure_block flagsCodeOnly [] outcomeW [0] [FTree.file "f".data]
    (by decide)
